import Mathlib

/-!
Verification of the `cfcalls` WebRTC echo relay (src/main.go) against its
natural-language specification.

The program is a single-file Go process: it fetches TURN credentials from the
Cloudflare API (`getTurnCredentials`), configures a peer connection, relays RTP
packets from the one inbound track to the outbound track (the `OnTrack`
callback), drains RTCP feedback, exits on `failed`/`closed` connection states
(the `OnConnectionStateChange` callback), and negotiates the session by
base64/JSON-encoding session descriptions (`encode`, `decode`,
`readUntilNewline`).

Embedding notes:
* Go byte values are `Nat` (with the invariant `< 256` carried as hypotheses
  where the arithmetic needs it); Go strings holding text are Lean `String`.
* `panic` in the Go source is modelled as an explicit failure outcome
  (`Option`/`Except`/an `Outcome` constructor): in this program every panic is
  process-fatal and unrecovered.
* The Go standard library codecs the source delegates to (`encoding/base64`
  StdEncoding, `encoding/json`, UTF-8 strings) are embedded from their
  documented behavior, since the repository contains no codec code of its own.
-/

namespace CFCalls

/-! ## Base64 (Go `encoding/base64` StdEncoding, as used by `encode`/`decode`) -/

/-- The standard base64 alphabet: index 0..63 to character. -/
def b64Alpha (n : Nat) : Char :=
  if n < 26 then Char.ofNat (65 + n)
  else if n < 52 then Char.ofNat (97 + (n - 26))
  else if n < 62 then Char.ofNat (48 + (n - 52))
  else if n = 62 then '+'
  else '/'

/-- Inverse alphabet lookup; `none` for a character outside the alphabet
(including the pad character). -/
def b64Index (c : Char) : Option Nat :=
  if 'A' ≤ c ∧ c ≤ 'Z' then some (c.toNat - 65)
  else if 'a' ≤ c ∧ c ≤ 'z' then some (c.toNat - 97 + 26)
  else if '0' ≤ c ∧ c ≤ '9' then some (c.toNat - 48 + 52)
  else if c = '+' then some 62
  else if c = '/' then some 63
  else none

/-- base64-encode a byte sequence, three bytes to four characters, padding the
final group with `=` as StdEncoding does. -/
def encodeBase64 : List Nat → List Char
  | [] => []
  | [x] => [b64Alpha (x / 4), b64Alpha ((x % 4) * 16), '=', '=']
  | [x, y] => [b64Alpha (x / 4), b64Alpha ((x % 4) * 16 + y / 16),
               b64Alpha ((y % 16) * 4), '=']
  | x :: y :: z :: rest =>
      b64Alpha (x / 4) :: b64Alpha ((x % 4) * 16 + y / 16) ::
      b64Alpha ((y % 16) * 4 + z / 64) :: b64Alpha (z % 64) :: encodeBase64 rest

/-- Decode one final quantum of four characters, allowing the `=` padding forms
(Go's non-strict StdEncoding does not reject nonzero trailing bits). -/
def decodeB64Group (a b c d : Char) : Option (List Nat) := do
  let x ← b64Index a
  let y ← b64Index b
  if d = '=' then
    if c = '=' then
      pure [x * 4 + y / 16]
    else do
      let z ← b64Index c
      pure [x * 4 + y / 16, (y % 16) * 16 + z / 4]
  else do
    let z ← b64Index c
    let w ← b64Index d
    pure [x * 4 + y / 16, (y % 16) * 16 + z / 4, (z % 4) * 64 + w]

/-- Decode a non-final quantum: all four characters must be alphabet
characters (padding may appear only in the final quantum). -/
def decodeB64Full (a b c d : Char) : Option (List Nat) := do
  let x ← b64Index a
  let y ← b64Index b
  let z ← b64Index c
  let w ← b64Index d
  pure [x * 4 + y / 16, (y % 16) * 16 + z / 4, (z % 4) * 64 + w]

/-- base64-decode; `none` on a character outside the alphabet, misplaced
padding, or a length that is not a multiple of four — the cases Go's
`base64.StdEncoding.DecodeString` rejects. -/
def decodeBase64 : List Char → Option (List Nat)
  | [] => some []
  | [a, b, c, d] => decodeB64Group a b c d
  | a :: b :: c :: d :: rest => do
      let g ← decodeB64Full a b c d
      let r ← decodeBase64 rest
      pure (g ++ r)
  | _ => none

theorem b64Index_b64Alpha : ∀ n, n < 64 → b64Index (b64Alpha n) = some n := by
  decide

theorem b64Alpha_ne_pad (n : Nat) (h : n < 64) : b64Alpha n ≠ '=' := by
  intro he
  have := b64Index_b64Alpha n h
  rw [he] at this
  simp [b64Index] at this

theorem encodeBase64_nil_iff (bs : List Nat) : encodeBase64 bs = [] ↔ bs = [] := by
  constructor
  · intro h
    match bs with
    | [] => rfl
    | [x] => simp [encodeBase64] at h
    | [x, y] => simp [encodeBase64] at h
    | x :: y :: z :: rest => simp [encodeBase64] at h
  · intro h; subst h; rfl

theorem decodeB64Group_encode_one (x : Nat) (hx : x < 256) :
    decodeB64Group (b64Alpha (x / 4)) (b64Alpha ((x % 4) * 16)) '=' '=' = some [x] := by
  have h1 : x / 4 < 64 := by omega
  have h2 : (x % 4) * 16 < 64 := by omega
  simp [decodeB64Group, b64Index_b64Alpha _ h1, b64Index_b64Alpha _ h2]
  omega

theorem decodeB64Group_encode_two (x y : Nat) (hx : x < 256) (hy : y < 256) :
    decodeB64Group (b64Alpha (x / 4)) (b64Alpha ((x % 4) * 16 + y / 16))
      (b64Alpha ((y % 16) * 4)) '=' = some [x, y] := by
  have h1 : x / 4 < 64 := by omega
  have h2 : (x % 4) * 16 + y / 16 < 64 := by omega
  have h3 : (y % 16) * 4 < 64 := by omega
  simp [decodeB64Group, b64Index_b64Alpha _ h1, b64Index_b64Alpha _ h2,
        b64Index_b64Alpha _ h3, b64Alpha_ne_pad _ h3]
  omega

theorem decodeB64Full_encode (x y z : Nat) (hx : x < 256) (hy : y < 256) (hz : z < 256) :
    decodeB64Full (b64Alpha (x / 4)) (b64Alpha ((x % 4) * 16 + y / 16))
      (b64Alpha ((y % 16) * 4 + z / 64)) (b64Alpha (z % 64)) = some [x, y, z] := by
  have h1 : x / 4 < 64 := by omega
  have h2 : (x % 4) * 16 + y / 16 < 64 := by omega
  have h3 : (y % 16) * 4 + z / 64 < 64 := by omega
  have h4 : z % 64 < 64 := by omega
  simp [decodeB64Full, b64Index_b64Alpha _ h1, b64Index_b64Alpha _ h2,
        b64Index_b64Alpha _ h3, b64Index_b64Alpha _ h4]
  omega

theorem decodeB64Group_encode_three (x y z : Nat) (hx : x < 256) (hy : y < 256)
    (hz : z < 256) :
    decodeB64Group (b64Alpha (x / 4)) (b64Alpha ((x % 4) * 16 + y / 16))
      (b64Alpha ((y % 16) * 4 + z / 64)) (b64Alpha (z % 64)) = some [x, y, z] := by
  have h3 : (y % 16) * 4 + z / 64 < 64 := by omega
  have h4 : z % 64 < 64 := by omega
  have h1 : x / 4 < 64 := by omega
  have h2 : (x % 4) * 16 + y / 16 < 64 := by omega
  simp [decodeB64Group, b64Index_b64Alpha _ h1, b64Index_b64Alpha _ h2,
        b64Index_b64Alpha _ h3, b64Index_b64Alpha _ h4, b64Alpha_ne_pad _ h4]
  omega

/-- Round trip of the base64 codec on byte sequences. -/
theorem decodeBase64_encodeBase64 (bs : List Nat) (h : ∀ b ∈ bs, b < 256) :
    decodeBase64 (encodeBase64 bs) = some bs := by
  induction bs using encodeBase64.induct with
  | case1 => rfl
  | case2 x =>
      have hx : x < 256 := h x (by simp)
      simp [encodeBase64, decodeBase64, decodeB64Group_encode_one x hx]
  | case3 x y =>
      have hx : x < 256 := h x (by simp)
      have hy : y < 256 := h y (by simp)
      simp [encodeBase64, decodeBase64, decodeB64Group_encode_two x y hx hy]
  | case4 x y z rest ih =>
      have hx : x < 256 := h x (by simp)
      have hy : y < 256 := h y (by simp)
      have hz : z < 256 := h z (by simp)
      have hrest : ∀ b ∈ rest, b < 256 := fun b hb => h b (by simp [hb])
      have ihr := ih hrest
      by_cases hre : rest = []
      · subst hre
        simp [encodeBase64, decodeBase64, decodeB64Group_encode_three x y z hx hy hz]
      · have hne : encodeBase64 rest ≠ [] := by
          simpa [encodeBase64_nil_iff] using hre
        match hmatch : encodeBase64 rest with
        | [] => exact absurd hmatch hne
        | e :: es =>
            rw [hmatch] at ihr
            simp only [encodeBase64, hmatch]
            show decodeBase64 (_ :: _ :: _ :: _ :: e :: es) = _
            simp [decodeBase64, decodeB64Full_encode x y z hx hy hz, ihr]

/-! ## UTF-8 (Go strings are UTF-8 byte sequences; `encode`/`decode` move
between the JSON text and the bytes given to base64) -/

/-- UTF-8 encoding of one Unicode scalar value. -/
def utf8EncodeChar (c : Char) : List Nat :=
  if c.toNat < 0x80 then [c.toNat]
  else if c.toNat < 0x800 then [0xC0 + c.toNat / 64, 0x80 + c.toNat % 64]
  else if c.toNat < 0x10000 then
    [0xE0 + c.toNat / 4096, 0x80 + c.toNat / 64 % 64, 0x80 + c.toNat % 64]
  else
    [0xF0 + c.toNat / 262144, 0x80 + c.toNat / 4096 % 64,
     0x80 + c.toNat / 64 % 64, 0x80 + c.toNat % 64]

/-- UTF-8 encoding of a character sequence as bytes. -/
def utf8Encode (cs : List Char) : List Nat := (cs.map utf8EncodeChar).flatten

/-- Decode one UTF-8-encoded scalar value from the front of a byte sequence:
the character and the remaining bytes. Rejects stray continuation bytes,
truncated or overlong sequences, surrogates, and values past U+10FFFF. -/
def utf8DecodeChar1 : List Nat → Option (Char × List Nat)
  | [] => none
  | b :: rest =>
    if b < 0x80 then some (Char.ofNat b, rest)
    else if 0xC2 ≤ b ∧ b < 0xE0 then
      match rest with
      | b2 :: rest2 =>
        if 0x80 ≤ b2 ∧ b2 < 0xC0 then
          some (Char.ofNat ((b - 0xC0) * 64 + (b2 - 0x80)), rest2)
        else none
      | [] => none
    else if 0xE0 ≤ b ∧ b < 0xF0 then
      match rest with
      | b2 :: b3 :: rest3 =>
        if (0x80 ≤ b2 ∧ b2 < 0xC0) ∧ (0x80 ≤ b3 ∧ b3 < 0xC0) then
          if 0x800 ≤ (b - 0xE0) * 4096 + (b2 - 0x80) * 64 + (b3 - 0x80) ∧
              ¬(0xD800 ≤ (b - 0xE0) * 4096 + (b2 - 0x80) * 64 + (b3 - 0x80) ∧
                (b - 0xE0) * 4096 + (b2 - 0x80) * 64 + (b3 - 0x80) < 0xE000) then
            some (Char.ofNat ((b - 0xE0) * 4096 + (b2 - 0x80) * 64 + (b3 - 0x80)), rest3)
          else none
        else none
      | _ => none
    else if 0xF0 ≤ b ∧ b < 0xF5 then
      match rest with
      | b2 :: b3 :: b4 :: rest4 =>
        if (0x80 ≤ b2 ∧ b2 < 0xC0) ∧ (0x80 ≤ b3 ∧ b3 < 0xC0) ∧ (0x80 ≤ b4 ∧ b4 < 0xC0) then
          if 0x10000 ≤ (b - 0xF0) * 262144 + (b2 - 0x80) * 4096 + (b3 - 0x80) * 64 + (b4 - 0x80) ∧
              (b - 0xF0) * 262144 + (b2 - 0x80) * 4096 + (b3 - 0x80) * 64 + (b4 - 0x80)
                < 0x110000 then
            some (Char.ofNat
              ((b - 0xF0) * 262144 + (b2 - 0x80) * 4096 + (b3 - 0x80) * 64 + (b4 - 0x80)), rest4)
          else none
        else none
      | _ => none
    else none

theorem utf8DecodeChar1_shorter (bs : List Nat) (c : Char) (rest : List Nat)
    (h : utf8DecodeChar1 bs = some (c, rest)) : rest.length < bs.length := by
  match bs with
  | [] => simp [utf8DecodeChar1] at h
  | b :: r =>
      simp only [utf8DecodeChar1] at h
      repeat' split at h
      all_goals simp_all
      all_goals omega

/-- Strict UTF-8 decoding of a byte sequence, one scalar value at a time. -/
def utf8Decode (bs : List Nat) : Option (List Char) :=
  match h : utf8DecodeChar1 bs with
  | none => if bs.isEmpty then some [] else none
  | some (c, rest) =>
      have : rest.length < bs.length := utf8DecodeChar1_shorter bs c rest h
      Option.map (fun cs => c :: cs) (utf8Decode rest)
termination_by bs.length

theorem char_valid_range (c : Char) :
    c.toNat < 0xD800 ∨ (0xE000 ≤ c.toNat ∧ c.toNat < 0x110000) := by
  have h := c.valid
  simp [UInt32.isValidChar, Nat.isValidChar, Char.toNat] at h ⊢
  omega

theorem utf8DecodeChar1_encodeChar (c : Char) (bs : List Nat) :
    utf8DecodeChar1 (utf8EncodeChar c ++ bs) = some (c, bs) := by
  have hv := char_valid_range c
  have hofnat := Char.ofNat_toNat c
  by_cases h1 : c.toNat < 0x80
  · have henc : utf8EncodeChar c = [c.toNat] := by simp [utf8EncodeChar, h1]
    rw [henc, List.cons_append, List.nil_append]
    simp only [utf8DecodeChar1, h1, if_true, ite_true, hofnat]
  · by_cases h2 : c.toNat < 0x800
    · have henc : utf8EncodeChar c = [0xC0 + c.toNat / 64, 0x80 + c.toNat % 64] := by
        simp [utf8EncodeChar, h1, h2]
      rw [henc]
      simp only [List.cons_append, List.nil_append]
      have hb : ¬ (0xC0 + c.toNat / 64 < 0x80) := by omega
      have hc : 0xC2 ≤ 0xC0 + c.toNat / 64 ∧ 0xC0 + c.toNat / 64 < 0xE0 := by omega
      have hcont : 0x80 ≤ 0x80 + c.toNat % 64 ∧ 0x80 + c.toNat % 64 < 0xC0 := by omega
      have harith : (0xC0 + c.toNat / 64 - 0xC0) * 64 + (0x80 + c.toNat % 64 - 0x80)
          = c.toNat := by omega
      simp only [utf8DecodeChar1, hb, hc.1, hc.2, hcont.1, hcont.2, and_self, if_true,
        if_false, ite_true, ite_false, and_true, true_and, harith, hofnat]
    · by_cases h3 : c.toNat < 0x10000
      · have henc : utf8EncodeChar c =
            [0xE0 + c.toNat / 4096, 0x80 + c.toNat / 64 % 64, 0x80 + c.toNat % 64] := by
          simp [utf8EncodeChar, h1, h2, h3]
        rw [henc]
        simp only [List.cons_append, List.nil_append]
        have hb : ¬ (0xE0 + c.toNat / 4096 < 0x80) := by omega
        have hb2 : ¬ (0xC2 ≤ 0xE0 + c.toNat / 4096 ∧ 0xE0 + c.toNat / 4096 < 0xE0) := by
          omega
        have hc : 0xE0 ≤ 0xE0 + c.toNat / 4096 ∧ 0xE0 + c.toNat / 4096 < 0xF0 := by omega
        have hcont2 : 0x80 ≤ 0x80 + c.toNat / 64 % 64 ∧ 0x80 + c.toNat / 64 % 64 < 0xC0 := by
          omega
        have hcont3 : 0x80 ≤ 0x80 + c.toNat % 64 ∧ 0x80 + c.toNat % 64 < 0xC0 := by omega
        have harith : (0xE0 + c.toNat / 4096 - 0xE0) * 4096 +
            (0x80 + c.toNat / 64 % 64 - 0x80) * 64 + (0x80 + c.toNat % 64 - 0x80)
            = c.toNat := by omega
        have hrange : 0x800 ≤ c.toNat ∧ ¬(0xD800 ≤ c.toNat ∧ c.toNat < 0xE000) := by omega
        simp only [utf8DecodeChar1, harith, hb, hb2, hc.1, hc.2, hcont2.1, hcont2.2,
          hcont3.1, hcont3.2, hrange.1, hrange.2, and_self, and_true, true_and,
          if_true, if_false, ite_true, ite_false, not_false_eq_true, hofnat]
      · have henc : utf8EncodeChar c =
            [0xF0 + c.toNat / 262144, 0x80 + c.toNat / 4096 % 64,
             0x80 + c.toNat / 64 % 64, 0x80 + c.toNat % 64] := by
          simp [utf8EncodeChar, h1, h2, h3]
        rw [henc]
        simp only [List.cons_append, List.nil_append]
        have h4 : c.toNat < 0x110000 := by omega
        have hb : ¬ (0xF0 + c.toNat / 262144 < 0x80) := by omega
        have hb2 : ¬ (0xC2 ≤ 0xF0 + c.toNat / 262144 ∧ 0xF0 + c.toNat / 262144 < 0xE0) := by
          omega
        have hb3 : ¬ (0xE0 ≤ 0xF0 + c.toNat / 262144 ∧ 0xF0 + c.toNat / 262144 < 0xF0) := by
          omega
        have hc : 0xF0 ≤ 0xF0 + c.toNat / 262144 ∧ 0xF0 + c.toNat / 262144 < 0xF5 := by omega
        have hcont2 : 0x80 ≤ 0x80 + c.toNat / 4096 % 64 ∧ 0x80 + c.toNat / 4096 % 64 < 0xC0 := by
          omega
        have hcont3 : 0x80 ≤ 0x80 + c.toNat / 64 % 64 ∧ 0x80 + c.toNat / 64 % 64 < 0xC0 := by
          omega
        have hcont4 : 0x80 ≤ 0x80 + c.toNat % 64 ∧ 0x80 + c.toNat % 64 < 0xC0 := by omega
        have harith : (0xF0 + c.toNat / 262144 - 0xF0) * 262144 +
            (0x80 + c.toNat / 4096 % 64 - 0x80) * 4096 +
            (0x80 + c.toNat / 64 % 64 - 0x80) * 64 + (0x80 + c.toNat % 64 - 0x80)
            = c.toNat := by omega
        have hrange : 0x10000 ≤ c.toNat ∧ c.toNat < 0x110000 := by omega
        simp only [utf8DecodeChar1, harith, hb, hb2, hb3, hc.1, hc.2, hcont2.1, hcont2.2,
          hcont3.1, hcont3.2, hcont4.1, hcont4.2, hrange.1, hrange.2, and_self,
          and_true, true_and, if_true, if_false, ite_true, ite_false,
          not_false_eq_true, hofnat]

theorem utf8EncodeChar_ne_nil (c : Char) : utf8EncodeChar c ≠ [] := by
  simp only [utf8EncodeChar]
  split_ifs <;> simp

theorem utf8Decode_append (cs : List Char) (bs : List Nat) :
    utf8Decode (utf8Encode cs ++ bs) =
      Option.map (fun ds => cs ++ ds) (utf8Decode bs) := by
  induction cs with
  | nil =>
      simp only [utf8Encode, List.map_nil, List.flatten_nil, List.nil_append]
      cases utf8Decode bs <;> rfl
  | cons c rest ih =>
      have hsplit : utf8Encode (c :: rest) = utf8EncodeChar c ++ utf8Encode rest := by
        simp [utf8Encode]
      rw [hsplit, List.append_assoc]
      rw [utf8Decode]
      split
      · rename_i heq
        rw [utf8DecodeChar1_encodeChar] at heq
        cases heq
      · rename_i c' rest' heq
        rw [utf8DecodeChar1_encodeChar] at heq
        injection heq with heq2
        injection heq2 with hc hrest
        subst hc
        subst hrest
        rw [ih]
        cases utf8Decode bs <;> rfl

theorem utf8Decode_nil : utf8Decode [] = some [] := by
  rw [utf8Decode]
  split
  · simp
  · rename_i heq
    simp [utf8DecodeChar1] at heq

/-- Round trip of the UTF-8 codec. -/
theorem utf8Decode_utf8Encode (cs : List Char) : utf8Decode (utf8Encode cs) = some cs := by
  have h := utf8Decode_append cs []
  rw [List.append_nil] at h
  rw [h, utf8Decode_nil]
  simp

theorem utf8EncodeChar_lt (c : Char) : ∀ b ∈ utf8EncodeChar c, b < 256 := by
  have hv := char_valid_range c
  simp only [utf8EncodeChar]
  split_ifs with h1 h2 h3
  · intro b hb; simp at hb; omega
  · intro b hb; simp at hb; rcases hb with rfl | rfl <;> omega
  · intro b hb; simp at hb; rcases hb with rfl | rfl | rfl <;> omega
  · intro b hb; simp at hb; rcases hb with rfl | rfl | rfl | rfl <;> omega

/-- Every byte the UTF-8 encoder emits is a byte. -/
theorem utf8Encode_lt (cs : List Char) : ∀ b ∈ utf8Encode cs, b < 256 := by
  induction cs with
  | nil => simp [utf8Encode]
  | cons c rest ih =>
      intro b hb
      have hsplit : utf8Encode (c :: rest) = utf8EncodeChar c ++ utf8Encode rest := by
        simp [utf8Encode]
      rw [hsplit, List.mem_append] at hb
      rcases hb with hb | hb
      · exact utf8EncodeChar_lt c b hb
      · exact ih b hb

/-! ## JSON string escaping (Go `encoding/json` string encoder, as
`json.Marshal` applies it with its default HTML escaping) -/

/-- Lowercase hexadecimal digit, as the Go JSON encoder emits in escapes. -/
def hexDigit (n : Nat) : Char :=
  if n < 10 then Char.ofNat (48 + n) else Char.ofNat (87 + n)

/-- Hexadecimal digit value; `none` for a non-digit. -/
def hexVal (c : Char) : Option Nat :=
  if '0' ≤ c ∧ c ≤ '9' then some (c.toNat - 48)
  else if 'a' ≤ c ∧ c ≤ 'f' then some (c.toNat - 87)
  else if 'A' ≤ c ∧ c ≤ 'F' then some (c.toNat - 55)
  else none

/-- Escape one character the way Go's JSON encoder does inside a string
literal: backslash escapes for quote, backslash, newline, carriage return and
tab; `\u00XX` for the other control characters and (HTML escaping, on by
default in `json.Marshal`) for `<`, `>`, `&`; a `\u202X` escape for the
Unicode line separators U+2028 and U+2029; every other character is
emitted as itself. -/
def escapeJsonChar (c : Char) : List Char :=
  if c = '"' then ['\\', '"']
  else if c = '\\' then ['\\', '\\']
  else if c = '\n' then ['\\', 'n']
  else if c = '\r' then ['\\', 'r']
  else if c = '\t' then ['\\', 't']
  else if c.toNat < 0x20 ∨ c = '<' ∨ c = '>' ∨ c = '&' then
    ['\\', 'u', '0', '0', hexDigit (c.toNat / 16), hexDigit (c.toNat % 16)]
  else if c.toNat = 0x2028 ∨ c.toNat = 0x2029 then
    ['\\', 'u', '2', '0', '2', hexDigit (c.toNat % 16)]
  else [c]

/-- The body of a JSON string literal for a character sequence. -/
def escapeJson (s : List Char) : List Char := (s.map escapeJsonChar).flatten

/-- The decoded character for a single-character backslash escape
(`\\x` for x among quote, backslash, slash, b, f, n, r, t). -/
def escChar1 (e : Char) : Option Char :=
  if e = '"' then some '"'
  else if e = '\\' then some '\\'
  else if e = '/' then some '/'
  else if e = 'b' then some (Char.ofNat 8)
  else if e = 'f' then some (Char.ofNat 12)
  else if e = 'n' then some '\n'
  else if e = 'r' then some '\r'
  else if e = 't' then some '\t'
  else none

/-- Decode a `\uXXXX` escape given the input following the `\u`: the decoded
character and the remaining input. Surrogate pairs are combined; an unpaired
surrogate becomes U+FFFD, as in Go. -/
def parseUEscape : List Char → Option (Char × List Char)
  | h1 :: h2 :: h3 :: h4 :: rest2 =>
    match hexVal h1, hexVal h2, hexVal h3, hexVal h4 with
    | some a, some b, some c, some d =>
      if 0xD800 ≤ a * 4096 + b * 256 + c * 16 + d ∧
          a * 4096 + b * 256 + c * 16 + d < 0xDC00 then
        match rest2 with
        | '\\' :: 'u' :: g1 :: g2 :: g3 :: g4 :: rest3 =>
          match hexVal g1, hexVal g2, hexVal g3, hexVal g4 with
          | some a2, some b2, some c2, some d2 =>
            if 0xDC00 ≤ a2 * 4096 + b2 * 256 + c2 * 16 + d2 ∧
                a2 * 4096 + b2 * 256 + c2 * 16 + d2 < 0xE000 then
              some (Char.ofNat (0x10000 +
                  (a * 4096 + b * 256 + c * 16 + d - 0xD800) * 1024 +
                  (a2 * 4096 + b2 * 256 + c2 * 16 + d2 - 0xDC00)), rest3)
            else some (Char.ofNat 0xFFFD, rest2)
          | _, _, _, _ => some (Char.ofNat 0xFFFD, rest2)
        | _ => some (Char.ofNat 0xFFFD, rest2)
      else if 0xDC00 ≤ a * 4096 + b * 256 + c * 16 + d ∧
          a * 4096 + b * 256 + c * 16 + d < 0xE000 then
        some (Char.ofNat 0xFFFD, rest2)
      else some (Char.ofNat (a * 4096 + b * 256 + c * 16 + d), rest2)
    | _, _, _, _ => none
  | _ => none

theorem parseUEscape_shorter (xs : List Char) (c : Char) (rest : List Char)
    (h : parseUEscape xs = some (c, rest)) : rest.length < xs.length := by
  match xs with
  | [] => simp [parseUEscape] at h
  | [x1] => simp [parseUEscape] at h
  | [x1, x2] => simp [parseUEscape] at h
  | [x1, x2, x3] => simp [parseUEscape] at h
  | x1 :: x2 :: x3 :: x4 :: r =>
      simp only [parseUEscape] at h
      repeat' split at h
      all_goals simp_all
      all_goals omega

/-- Parse the body of a JSON string literal up to and including the closing
quote: the decoded characters and the input remaining after the quote.
Handles the backslash escapes and `\uXXXX`, rejects unescaped control
characters and an unterminated literal. -/
def parseJsonStringBody : List Char → Option (List Char × List Char)
  | [] => none
  | '"' :: rest => some ([], rest)
  | '\\' :: e :: rest =>
    if e = 'u' then
      match h : parseUEscape rest with
      | none => none
      | some (ch, rest2) =>
          have : rest2.length < rest.length := parseUEscape_shorter rest ch rest2 h
          Option.map (fun p => (ch :: p.1, p.2)) (parseJsonStringBody rest2)
    else
      match escChar1 e with
      | none => none
      | some ch => Option.map (fun p => (ch :: p.1, p.2)) (parseJsonStringBody rest)
  | c :: rest =>
    if c.toNat < 0x20 then none
    else Option.map (fun p => (c :: p.1, p.2)) (parseJsonStringBody rest)
termination_by l => l.length
decreasing_by all_goals simp <;> omega

theorem hexVal_hexDigit : ∀ n, n < 16 → hexVal (hexDigit n) = some n := by
  decide

theorem parse_quote (rest : List Char) :
    parseJsonStringBody ('"' :: rest) = some ([], rest) := by
  conv_lhs => rw [parseJsonStringBody.eq_def]
  rfl

theorem parse_esc_simple (e ch : Char) (rest : List Char) (hne : e ≠ 'u')
    (he : escChar1 e = some ch) :
    parseJsonStringBody ('\\' :: e :: rest) =
      Option.map (fun p => (ch :: p.1, p.2)) (parseJsonStringBody rest) := by
  conv_lhs => rw [parseJsonStringBody.eq_def]
  simp only [hne, if_false, ite_false, he, reduceIte]

theorem parseUEscape_hex (h1 h2 h3 h4 : Char) (rest : List Char) (a b c d : Nat)
    (hv1 : hexVal h1 = some a) (hv2 : hexVal h2 = some b)
    (hv3 : hexVal h3 = some c) (hv4 : hexVal h4 = some d)
    (hns : a * 4096 + b * 256 + c * 16 + d < 0xD800) :
    parseUEscape (h1 :: h2 :: h3 :: h4 :: rest) =
      some (Char.ofNat (a * 4096 + b * 256 + c * 16 + d), rest) := by
  have hc1 : ¬ (0xD800 ≤ a * 4096 + b * 256 + c * 16 + d ∧
      a * 4096 + b * 256 + c * 16 + d < 0xDC00) := by omega
  have hc2 : ¬ (0xDC00 ≤ a * 4096 + b * 256 + c * 16 + d ∧
      a * 4096 + b * 256 + c * 16 + d < 0xE000) := by omega
  simp only [parseUEscape, hv1, hv2, hv3, hv4, hc1, hc2, if_false, ite_false, reduceIte]

theorem parse_esc_u (h1 h2 h3 h4 : Char) (rest : List Char) (a b c d : Nat)
    (hv1 : hexVal h1 = some a) (hv2 : hexVal h2 = some b)
    (hv3 : hexVal h3 = some c) (hv4 : hexVal h4 = some d)
    (hns : a * 4096 + b * 256 + c * 16 + d < 0xD800) :
    parseJsonStringBody ('\\' :: 'u' :: h1 :: h2 :: h3 :: h4 :: rest) =
      Option.map (fun p => (Char.ofNat (a * 4096 + b * 256 + c * 16 + d) :: p.1, p.2))
        (parseJsonStringBody rest) := by
  conv_lhs => rw [parseJsonStringBody.eq_def]
  simp only [if_true, ite_true, reduceIte]
  split
  · rename_i heq
    rw [parseUEscape_hex h1 h2 h3 h4 rest a b c d hv1 hv2 hv3 hv4 hns] at heq
    cases heq
  · rename_i ch rest2 heq
    rw [parseUEscape_hex h1 h2 h3 h4 rest a b c d hv1 hv2 hv3 hv4 hns] at heq
    injection heq with heq2
    injection heq2 with hch hrest
    subst hch
    subst hrest
    rfl

theorem parse_lit (c : Char) (rest : List Char) (h1 : c ≠ '"') (h2 : c ≠ '\\')
    (h3 : ¬ c.toNat < 0x20) :
    parseJsonStringBody (c :: rest) =
      Option.map (fun p => (c :: p.1, p.2)) (parseJsonStringBody rest) := by
  conv_lhs => rw [parseJsonStringBody.eq_def]
  split
  · rename_i heq; cases heq
  · rename_i heq
    injection heq with hc
    exact absurd hc h1
  · rename_i heq
    injection heq with hc
    exact absurd hc h2
  · rename_i c2 rest2 _ _ heq
    injection heq with hc hrest
    subst hc
    subst hrest
    simp [h3]

/-- Round trip of the JSON string-literal codec. -/
theorem parseJsonStringBody_escape (s : List Char) :
    ∀ rest, parseJsonStringBody (escapeJson s ++ '"' :: rest) = some (s, rest) := by
  induction s with
  | nil =>
      intro rest
      have h0 : escapeJson [] = [] := by simp [escapeJson]
      rw [h0, List.nil_append, parse_quote]
  | cons c s2 ih =>
      intro rest
      have hesc : escapeJson (c :: s2) = escapeJsonChar c ++ escapeJson s2 := by
        simp [escapeJson]
      rw [hesc, List.append_assoc]
      by_cases h1 : c = '"'
      · subst h1
        have he : escapeJsonChar '"' = ['\\', '"'] := by simp [escapeJsonChar]
        rw [he]
        simp only [List.cons_append, List.nil_append]
        rw [parse_esc_simple '"' '"' _ (by decide) (by decide), ih]
        rfl
      · by_cases h2 : c = '\\'
        · subst h2
          have he : escapeJsonChar '\\' = ['\\', '\\'] := by simp [escapeJsonChar]
          rw [he]
          simp only [List.cons_append, List.nil_append]
          rw [parse_esc_simple '\\' '\\' _ (by decide) (by decide), ih]
          rfl
        · by_cases h3 : c = '\n'
          · subst h3
            have he : escapeJsonChar '\n' = ['\\', 'n'] := by simp [escapeJsonChar]
            rw [he]
            simp only [List.cons_append, List.nil_append]
            rw [parse_esc_simple 'n' '\n' _ (by decide) (by decide), ih]
            rfl
          · by_cases h4 : c = '\r'
            · subst h4
              have he : escapeJsonChar '\r' = ['\\', 'r'] := by simp [escapeJsonChar]
              rw [he]
              simp only [List.cons_append, List.nil_append]
              rw [parse_esc_simple 'r' '\r' _ (by decide) (by decide), ih]
              rfl
            · by_cases h5 : c = '\t'
              · subst h5
                have he : escapeJsonChar '\t' = ['\\', 't'] := by simp [escapeJsonChar]
                rw [he]
                simp only [List.cons_append, List.nil_append]
                rw [parse_esc_simple 't' '\t' _ (by decide) (by decide), ih]
                rfl
              · by_cases h6 : c.toNat < 0x20 ∨ c = '<' ∨ c = '>' ∨ c = '&'
                · have hlt : c.toNat < 0x40 := by
                    rcases h6 with h | h | h | h
                    · omega
                    all_goals (subst h; decide)
                  have he : escapeJsonChar c =
                      ['\\', 'u', '0', '0', hexDigit (c.toNat / 16),
                       hexDigit (c.toNat % 16)] := by
                    simp [escapeJsonChar, h1, h2, h3, h4, h5, h6]
                  rw [he]
                  simp only [List.cons_append, List.nil_append]
                  rw [parse_esc_u '0' '0' (hexDigit (c.toNat / 16)) (hexDigit (c.toNat % 16))
                    _ 0 0 (c.toNat / 16) (c.toNat % 16) (by decide) (by decide)
                    (hexVal_hexDigit _ (by omega)) (hexVal_hexDigit _ (by omega))
                    (by omega)]
                  have harith : 0 * 4096 + 0 * 256 + c.toNat / 16 * 16 + c.toNat % 16
                      = c.toNat := by omega
                  rw [harith, Char.ofNat_toNat, ih]
                  rfl
                · by_cases h7 : c.toNat = 0x2028 ∨ c.toNat = 0x2029
                  · have he : escapeJsonChar c =
                        ['\\', 'u', '2', '0', '2', hexDigit (c.toNat % 16)] := by
                      simp [escapeJsonChar, h1, h2, h3, h4, h5, h6, h7]
                    rw [he]
                    simp only [List.cons_append, List.nil_append]
                    rw [parse_esc_u '2' '0' '2' (hexDigit (c.toNat % 16))
                      _ 2 0 2 (c.toNat % 16) (by decide) (by decide) (by decide)
                      (hexVal_hexDigit _ (by omega)) (by omega)]
                    have harith : 2 * 4096 + 0 * 256 + 2 * 16 + c.toNat % 16
                        = c.toNat := by omega
                    rw [harith, Char.ofNat_toNat, ih]
                    rfl
                  · have he : escapeJsonChar c = [c] := by
                      simp [escapeJsonChar, h1, h2, h3, h4, h5, h6, h7]
                    rw [he]
                    simp only [List.cons_append, List.nil_append]
                    have hge : ¬ c.toNat < 0x20 := by
                      intro hc
                      exact h6 (Or.inl hc)
                    rw [parse_lit c _ h1 h2 hge, ih]
                    rfl

/-! ## Session descriptions (`webrtc.SessionDescription` as JSON-marshalled
and unmarshalled by `encode`/`decode` in main.go) -/

/-- The valid SDP type values of a `webrtc.SessionDescription` (its JSON
`type` field). -/
inductive SDPType where
  | offer
  | pranswer
  | answer
  | rollback
deriving DecidableEq, Repr

/-- The JSON string value for an SDP type, as pion marshals it. -/
def sdpTypeString : SDPType → List Char
  | .offer => "offer".data
  | .pranswer => "pranswer".data
  | .answer => "answer".data
  | .rollback => "rollback".data

/-- The SDP type a JSON string value unmarshals to; `none` for an
unrecognized value. -/
def sdpTypeOfString (s : List Char) : Option SDPType :=
  if s = "offer".data then some .offer
  else if s = "pranswer".data then some .pranswer
  else if s = "answer".data then some .answer
  else if s = "rollback".data then some .rollback
  else none

/-- A session description: the `type` and `sdp` fields of
`webrtc.SessionDescription` (the unexported parsed cache is not part of the
JSON contract). A value of this type is a valid session description: the
type is one of the four valid SDP types and the SDP body is a (Unicode)
string. -/
structure SessionDescription where
  type : SDPType
  sdp : String
deriving DecidableEq, Repr

/-- The JSON text `json.Marshal` produces for a session description:
an object with the `type` and `sdp` fields in struct order and the Go
string escaping applied to the values. -/
def marshalSessionDescription (d : SessionDescription) : List Char :=
  "\x7b\"type\":\"".data ++ escapeJson (sdpTypeString d.type) ++
  "\",\"sdp\":\"".data ++ escapeJson d.sdp.data ++ "\"\x7d".data

/-- Consume an expected literal from the front of the input, giving the
remaining input. -/
def expectLit : List Char → List Char → Option (List Char)
  | [], s => some s
  | p :: ps, c :: cs => if c = p then expectLit ps cs else none
  | _ :: _, [] => none

/-- Parse the JSON serialization of a session description. Modelled from the
Go `encoding/json` unmarshalling as this program exercises it: the canonical
object shape `json.Marshal` itself produces (both fields, in struct order,
no interleaved whitespace), with full JSON string-escape handling in the
field values. Go's parser additionally tolerates whitespace, reordered and
unknown fields; an unrecognized `type` value is modelled as a failure where
Go would yield the zero (unknown) SDP type, which this program could not
use. -/
def parseSessionDescription (cs : List Char) : Option SessionDescription := do
  let r1 ← expectLit "\x7b\"type\":\"".data cs
  let (tw, r2) ← parseJsonStringBody r1
  let ty ← sdpTypeOfString tw
  let r3 ← expectLit ",\"sdp\":\"".data r2
  let (sw, r4) ← parseJsonStringBody r3
  let r5 ← expectLit "\x7d".data r4
  if r5.isEmpty then pure ⟨ty, String.mk sw⟩ else none

theorem expectLit_append (p : List Char) : ∀ s, expectLit p (p ++ s) = some s := by
  induction p with
  | nil => intro s; rfl
  | cons c ps ih => intro s; simp [expectLit, ih]

/-- Round trip of the session-description JSON codec. -/
theorem parseSessionDescription_marshal (d : SessionDescription) :
    parseSessionDescription (marshalSessionDescription d) = some d := by
  rcases d with ⟨ty, sdp⟩
  have hty : sdpTypeOfString (sdpTypeString ty) = some ty := by
    cases ty <;> rfl
  have hmk : String.mk sdp.data = sdp := by
    cases sdp
    rfl
  have hlay : marshalSessionDescription ⟨ty, sdp⟩ =
      "\x7b\"type\":\"".data ++ (escapeJson (sdpTypeString ty) ++ '"' ::
        (",\"sdp\":\"".data ++ (escapeJson sdp.data ++ '"' :: ("\x7d".data ++ [])))) := by
    simp [marshalSessionDescription, List.append_assoc]
  rw [hlay]
  simp [parseSessionDescription, expectLit, parseJsonStringBody_escape, hty, hmk]

/-! ## `encode` / `decode` (main.go lines 196-215) -/

/-- main.go `encode`: JSON-marshal the session description and base64 the
resulting bytes (the UTF-8 bytes of the JSON text). -/
def encode (d : SessionDescription) : String :=
  String.mk (encodeBase64 (utf8Encode (marshalSessionDescription d)))

/-- main.go `decode`: base64-decode the token and JSON-unmarshal the bytes
into a session description. The source panics on either failure; `none`
models that panic (process-fatal, not recovered). -/
def decode (s : String) : Option SessionDescription := do
  let bs ← decodeBase64 s.data
  let cs ← utf8Decode bs
  parseSessionDescription cs

/-- C2: decoding an encoded session description succeeds and gives back the
same value, field for field. -/
theorem decode_encode (d : SessionDescription) : decode (encode d) = some d := by
  have hb : ∀ b ∈ utf8Encode (marshalSessionDescription d), b < 256 :=
    utf8Encode_lt (marshalSessionDescription d)
  simp only [decode, encode]
  rw [decodeBase64_encodeBase64 _ hb]
  simp [utf8Decode_utf8Encode, parseSessionDescription_marshal]

/-! ## RTP relay loop (main.go lines 122-134, the `OnTrack` callback)

The callback loops forever: `track.ReadRTP()`; on a read error it panics
(process-fatal); otherwise `outputTrack.WriteRTP(rtp)` with the packet
unchanged; on a write error it panics. The loop's only inputs are the
successive read results and, for each written packet, whether the write
succeeded; the model takes a finite prefix of this interaction and reports
the packets handed to `WriteRTP` (the writes to the outbound track, in
order) and how the prefix ended. -/

/-- An RTP packet as the relay sees it: sequence-numbered, timestamped,
with a payload-type and opaque payload bytes. Forwarded whole. -/
structure RTPPacket where
  sequenceNumber : Nat
  timestamp : Nat
  payloadType : Nat
  payload : List Nat
deriving DecidableEq, Repr

/-- One iteration's interaction with the transport: a successful read
(with whether the following write succeeds) or a failed read. -/
inductive RelayEvent where
  | readOk (p : RTPPacket) (writeOk : Bool)
  | readFailed
deriving DecidableEq, Repr

/-- How the relay loop left a finite interaction prefix. -/
inductive RelayOutcome where
  | waiting
  | panicked
deriving DecidableEq, Repr

/-- The relay loop of the `OnTrack` callback over a finite interaction
prefix: the packets passed to `WriteRTP` in order, and whether the loop is
still blocked on the next read (`waiting`) or panicked (a panic in the
callback goroutine crashes the whole Go process). -/
def relayLoop : List RelayEvent → List RTPPacket × RelayOutcome
  | [] => ([], .waiting)
  | .readFailed :: _ => ([], .panicked)
  | .readOk p false :: _ => ([p], .panicked)
  | .readOk p true :: rest =>
      let r := relayLoop rest
      (p :: r.1, r.2)

/-! ## RTCP drain loop (main.go lines 102-109) -/

/-- The size of the scratch buffer the RTCP goroutine allocates:
`rtcpBuf := make([]byte, 1500)`. -/
def rtcpBufSize : Nat := 1500

/-- One read from the sender's RTCP feedback channel: some bytes (discarded
by the loop) or an error. -/
inductive RTCPReadResult where
  | bytes (n : Nat)
  | readFailed
deriving DecidableEq, Repr

/-- How the drain goroutine left a finite read prefix. -/
inductive DrainOutcome where
  | reading
  | returned
deriving DecidableEq, Repr

/-- Observable actions of the drain goroutine: everything it printed and
any process-exit it requested, plus the loop state. The goroutine's body
contains no print and no exit call: it reads, discards, and on the first
read error plainly returns. -/
structure DrainRun where
  prints : List String
  exitCode : Option Nat
  outcome : DrainOutcome
deriving DecidableEq, Repr

/-- The RTCP drain loop over a finite prefix of read results. -/
def rtcpDrainLoop : List RTCPReadResult → DrainRun
  | [] => ⟨[], none, .reading⟩
  | .readFailed :: _ => ⟨[], none, .returned⟩
  | .bytes _ :: rest => rtcpDrainLoop rest

/-! ## Connection-state machine (main.go lines 137-149, the
`OnConnectionStateChange` callback) -/

/-- `webrtc.PeerConnectionState`. -/
inductive PeerConnectionState where
  | new
  | connecting
  | connected
  | disconnected
  | failed
  | closed
deriving DecidableEq, Repr

/-- Whether the callback calls `os.Exit(0)` for this state: it does exactly
for `failed` and `closed`. -/
def stateTriggersExit : PeerConnectionState → Bool
  | .failed => true
  | .closed => true
  | _ => false

/-- A run of the state-change callback over a sequence of delivered
transitions: the transitions actually processed (`os.Exit` terminates the
process, so nothing after the first exiting one runs) and the exit code
issued, if any. -/
structure LifecycleRun where
  processed : List PeerConnectionState
  exitCode : Option Nat
deriving DecidableEq, Repr

/-- Deliver connection-state transitions to the callback in order,
stopping at the first `os.Exit`. -/
def runLifecycle : List PeerConnectionState → LifecycleRun
  | [] => ⟨[], none⟩
  | s :: rest =>
      if stateTriggersExit s then ⟨[s], some 0⟩
      else
        let r := runLifecycle rest
        ⟨s :: r.processed, r.exitCode⟩

/-! ## `readUntilNewline` (main.go lines 176-193) -/

/-- The error part of one `bufio.Reader.ReadString` result: no error,
`io.EOF`, or any other error. -/
inductive ReadErrKind where
  | noErr
  | eof
  | other
deriving DecidableEq, Repr

/-- `unicode.IsSpace` for the Latin-1 range, the set `strings.TrimSpace`
trims (space, tab, newline, vertical tab, form feed, carriage return,
NEL, NBSP). The Unicode space separators above Latin-1 that Go also trims
are omitted from the model; no claim depends on them. -/
def goIsSpace (c : Char) : Bool :=
  c = ' ' || c = '\t' || c = '\n' || c = Char.ofNat 11 || c = Char.ofNat 12 ||
  c = '\r' || c = Char.ofNat 0x85 || c = Char.ofNat 0xA0

/-- `strings.TrimSpace`: drop the leading and trailing whitespace. -/
def goTrimSpace (s : String) : String :=
  String.mk (List.rdropWhile goIsSpace (List.dropWhile goIsSpace s.data))

/-- How `readUntilNewline` ends on a finite prefix of line reads: it
returns a string, panics on a non-EOF read error, or is still looping
(in particular, once the input is at end-of-file, `ReadString` yields
`("", io.EOF)` forever, every iteration trims the empty string and loops
again — the exhausted prefix stands for that endless tail). -/
inductive ReadLoopOutcome where
  | returns (s : String)
  | panics
  | stillLooping
deriving DecidableEq, Repr

/-- `readUntilNewline` over the successive `ReadString('\n')` results:
panic on a non-EOF error; otherwise trim the line and return it when the
trimmed line is non-empty, else keep reading. -/
def readUntilNewline : List (String × ReadErrKind) → ReadLoopOutcome
  | [] => .stillLooping
  | (s, e) :: rest =>
      if e = .other then .panics
      else if 0 < (goTrimSpace s).length then .returns (goTrimSpace s)
      else readUntilNewline rest

/-! ## TURN credentials (main.go lines 217-260, `getTurnCredentials` and
`TurnCredentials`) -/

/-- A JSON value, for the issuer's response body. -/
inductive Json where
  | null
  | boolean (b : Bool)
  | number (n : Int)
  | string (s : String)
  | array (xs : List Json)
  | object (fields : List (String × Json))

/-- The inner struct of `TurnCredentials`: `urls`, `username`,
`credential` (JSON tags of the anonymous `ICECredentials` struct). -/
structure ICEServerCredentials where
  urls : List String
  username : String
  credential : String
deriving DecidableEq, Repr

/-- `TurnCredentials`: one field, JSON key `iceServers`. -/
structure TurnCredentials where
  ICECredentials : ICEServerCredentials
deriving DecidableEq, Repr

/-- Go `encoding/json` unmarshalling of a JSON value into a `string`
field holding `cur`: a JSON string overwrites it, `null` keeps it, any
other value is an unmarshalling error. -/
def unmarshalGoString (v : Json) (cur : String) : Option String :=
  match v with
  | .string s => some s
  | .null => some cur
  | _ => none

/-- Go `encoding/json` unmarshalling of a JSON value into a `[]string`
field: each array element must unmarshal into a string (`null` elements
give the zero value `""`); `null` keeps the current slice. -/
def unmarshalGoStringSlice (v : Json) (cur : List String) : Option (List String) :=
  match v with
  | .null => some cur
  | .array xs =>
      xs.foldr (fun x acc => do
        let s ← unmarshalGoString x ""
        let rest ← acc
        pure (s :: rest)) (some [])
  | _ => none

/-- Unmarshal one `iceServers` member field into the inner struct,
ignoring unknown keys as Go does. (Go additionally matches keys
case-insensitively as a fallback; exact keys suffice here.) -/
def applyICEField (acc : Option ICEServerCredentials) (kv : String × Json) :
    Option ICEServerCredentials := do
  let cur ← acc
  if kv.1 = "urls" then
    let us ← unmarshalGoStringSlice kv.2 cur.urls
    pure { cur with urls := us }
  else if kv.1 = "username" then
    let u ← unmarshalGoString kv.2 cur.username
    pure { cur with username := u }
  else if kv.1 = "credential" then
    let c ← unmarshalGoString kv.2 cur.credential
    pure { cur with credential := c }
  else
    pure cur

/-- Unmarshal a JSON value into the inner struct (zero value
`{[], "", ""}` to start; missing keys keep their zero values, later
duplicate keys overwrite earlier ones, as in Go). -/
def unmarshalICECredentials (v : Json) (cur : ICEServerCredentials) :
    Option ICEServerCredentials :=
  match v with
  | .null => some cur
  | .object fields => fields.foldl applyICEField (some cur)
  | _ => none

/-- Unmarshal the issuer's response body into `TurnCredentials`:
an object whose `iceServers` member (if present) fills the inner struct;
every other top-level shape except `null` is an unmarshalling error. -/
def unmarshalTurnCredentials (v : Json) : Option TurnCredentials :=
  match v with
  | .null => some ⟨⟨[], "", ""⟩⟩
  | .object fields =>
      (fields.foldl
        (fun acc kv => do
          let cur ← acc
          if kv.1 = "iceServers" then
            let ice ← unmarshalICECredentials kv.2 cur
            pure ice
          else
            pure cur)
        (some ⟨[], "", ""⟩)).map (fun ice => ⟨ice⟩)
  | _ => none

/-- The issuer's HTTP response as `getTurnCredentials` receives it: the
numeric status code, the status text (`resp.Status`, e.g. "201 Created"),
and the body — `some` JSON value, or `none` when the body is not valid
JSON (the `json.Decoder.Decode` error case). -/
structure HttpResponse where
  statusCode : Nat
  status : String
  bodyJson : Option Json

/-- main.go `getTurnCredentials`, from the received response on: any
status other than 201 Created is an error carrying the status text; a
201 response is JSON-decoded into `TurnCredentials` and returned as-is —
no field of the decoded value is validated. (The transport-error and
request-construction error returns precede the response and are not
modelled; `turnRequest` below models the request.) -/
def getTurnCredentials (resp : HttpResponse) : Except String TurnCredentials :=
  if resp.statusCode ≠ 201 then
    .error ("failed to get TURN credentials, status: " ++ resp.status)
  else
    match resp.bodyJson with
    | none => .error "json decode error"
    | some v =>
        match unmarshalTurnCredentials v with
        | none => .error "json decode error"
        | some c => .ok c

/-- The environment-derived configuration (package-level variables from
`os.Getenv`). -/
structure Env where
  cloudflareApiToken : String
  turnToken : String
deriving DecidableEq, Repr

/-- The constant `cloudflareAPI`. -/
def cloudflareAPI : String := "https://rtc.live.cloudflare.com/v1"

/-- The package-level `cloudflareTurnAPI` URL. -/
def cloudflareTurnAPI (env : Env) : String :=
  cloudflareAPI ++ "/turn/keys/" ++ env.turnToken ++ "/credentials/generate"

/-- An HTTP request as `getTurnCredentials` builds it. -/
structure HttpRequest where
  method : String
  url : String
  headers : List (String × String)
  body : String
deriving DecidableEq, Repr

/-- The one request `getTurnCredentials` issues per invocation
(main.go lines 219-225): a POST to `cloudflareTurnAPI` with the bearer
Authorization and JSON Content-Type headers and the fixed body
`\x7b"ttl": 86400\x7d`. -/
def turnRequest (env : Env) : HttpRequest :=
  { method := "POST"
    url := cloudflareTurnAPI env
    headers := [("Authorization", "Bearer " ++ env.cloudflareApiToken),
                ("Content-Type", "application/json")]
    body := "\x7b\"ttl\": 86400\x7d" }

/-- The request §6 of the spec describes, built from its parameters,
including the caller-supplied TTL in seconds. Modelled from the spec for
the comparison in C8. -/
def specTurnRequest (base keyId token : String) (ttlSeconds : Nat) : HttpRequest :=
  { method := "POST"
    url := base ++ "/turn/keys/" ++ keyId ++ "/credentials/generate"
    headers := [("Authorization", "Bearer " ++ token),
                ("Content-Type", "application/json")]
    body := "\x7b\"ttl\": " ++ toString ttlSeconds ++ "\x7d" }

/-! ## Startup and negotiation order (main.go `main`) -/

/-- How far `main` gets from the credential fetch to constructing the
peer connection (main.go lines 35-79): a failed fetch panics before
`api.NewPeerConnection` is reached; a successful fetch reaches it with
the fetched credentials in the configuration. (The intervening
media-engine and interceptor registrations are modelled as succeeding.) -/
inductive StartupOutcome where
  | panicked (msg : String)
  | pcCreated (iceUrls : List String) (username credential : String)
deriving DecidableEq, Repr

/-- The startup prefix of `main`, driven by the issuer's response. -/
def mainStartup (resp : HttpResponse) : StartupOutcome :=
  match getTurnCredentials resp with
  | .error e => .panicked e
  | .ok c =>
      .pcCreated c.ICECredentials.urls c.ICECredentials.username
        c.ICECredentials.credential

/-- How the negotiation step that decodes the pasted offer ends
(main.go line 113 and 116): a decode failure panics inside `decode`
before `SetRemoteDescription` is reached; otherwise the decoded offer is
applied as the remote description. -/
inductive NegotiationOutcome where
  | panicked
  | remoteApplied (d : SessionDescription)
deriving DecidableEq, Repr

/-- Decode the operator-supplied offer line and apply it to the
transport. -/
def applyRemoteOffer (line : String) : NegotiationOutcome :=
  match decode line with
  | none => .panicked
  | some d => .remoteApplied d

/-! ## The claims -/

/-- C1: for every sequence of N RTP packets successfully read from the one
inbound track (all writes succeeding), the relay loop performs exactly N
writes to the outbound track, in the same relative order as the reads, each
written packet identical to the read one — in particular with the same
payload bytes — and the loop is then still waiting on the next read. -/
theorem relay_order_preservation (ps : List RTPPacket) :
    relayLoop (ps.map (fun p => RelayEvent.readOk p true)) = (ps, RelayOutcome.waiting) ∧
    (relayLoop (ps.map (fun p => RelayEvent.readOk p true))).1.map RTPPacket.payload
      = ps.map RTPPacket.payload := by
  have h : relayLoop (ps.map (fun p => RelayEvent.readOk p true))
      = (ps, RelayOutcome.waiting) := by
    induction ps with
    | nil => rfl
    | cons p rest ih => simp [relayLoop, ih]
  exact ⟨h, by rw [h]⟩

/-- C4: for a read stream of k successful reads (with successful writes)
followed by a read failure, the relay loop forwards exactly the k packets
in order and then panics — process-fatal, with no further writes and no
local recovery. -/
theorem relay_fatal_on_read_failure (ps : List RTPPacket) :
    relayLoop (ps.map (fun p => RelayEvent.readOk p true) ++ [RelayEvent.readFailed])
      = (ps, RelayOutcome.panicked) := by
  induction ps with
  | nil => rfl
  | cons p rest ih => simp [relayLoop, ih]

/-- C9: the RTCP drain loop reads into a fixed 1500-byte buffer, discards
everything it reads, and on the first read error returns silently: it never
prints, never requests a process exit, and returns exactly when a read
fails. -/
theorem rtcp_drain_silent (reads : List RTCPReadResult) :
    rtcpBufSize = 1500 ∧
    (rtcpDrainLoop reads).prints = [] ∧
    (rtcpDrainLoop reads).exitCode = none ∧
    ((rtcpDrainLoop reads).outcome = DrainOutcome.returned ↔
      RTCPReadResult.readFailed ∈ reads) := by
  refine ⟨rfl, ?_⟩
  induction reads with
  | nil => simp [rtcpDrainLoop]
  | cons r rest ih =>
      cases r with
      | readFailed => simp [rtcpDrainLoop]
      | bytes n =>
          simp only [rtcpDrainLoop]
          refine ⟨ih.1, ih.2.1, ?_⟩
          rw [ih.2.2]
          simp

/-- C5: over any delivered connection-state sequence, the callback issues an
exit action exactly when a `failed` or `closed` state occurs, always with
exit status 0, at most once (processing stops at it), triggered at the first
`failed`/`closed` transition; and the triggering states are exactly `failed`
and `closed` — never `new`, `connecting`, `connected` or `disconnected`. -/
theorem lifecycle_termination (ss : List PeerConnectionState) :
    ((runLifecycle ss).exitCode = some 0 ↔ ∃ s ∈ ss, stateTriggersExit s = true) ∧
    ((runLifecycle ss).exitCode = none ∨ (runLifecycle ss).exitCode = some 0) ∧
    ((runLifecycle ss).processed
      = ss.takeWhile (fun s => !stateTriggersExit s)
        ++ (ss.dropWhile (fun s => !stateTriggersExit s)).take 1) ∧
    (∀ s : PeerConnectionState, stateTriggersExit s = true ↔
      (s = PeerConnectionState.failed ∨ s = PeerConnectionState.closed)) := by
  refine ⟨?_, ?_, ?_, fun s => by cases s <;> simp [stateTriggersExit]⟩
  · induction ss with
    | nil => simp [runLifecycle]
    | cons s rest ih =>
        by_cases h : stateTriggersExit s
        · simp [runLifecycle, h]
        · simp only [runLifecycle, h, if_false, ite_false, Bool.false_eq_true]
          rw [ih]
          simp [h]
  · induction ss with
    | nil => simp [runLifecycle]
    | cons s rest ih =>
        by_cases h : stateTriggersExit s
        · simp [runLifecycle, h]
        · simp only [runLifecycle, h, if_false, ite_false, Bool.false_eq_true]
          exact ih
  · induction ss with
    | nil => simp [runLifecycle]
    | cons s rest ih =>
        by_cases h : stateTriggersExit s
        · simp [runLifecycle, h, List.takeWhile_cons, List.dropWhile_cons]
        · simp only [runLifecycle, h, if_false, ite_false, Bool.false_eq_true,
            List.takeWhile_cons, List.dropWhile_cons]
          simp only [h, Bool.not_false, if_true, ite_true]
          rw [ih]
          simp [h]

/-- C3's counterexample: an issuer response with status 201 Created and the
JSON body `\x7b\x7d` makes `getTurnCredentials` return a success value whose
URL list, username and credential are all empty — the code performs no
field validation. -/
theorem getTurnCredentials_partial_success :
    getTurnCredentials ⟨201, "201 Created", some (Json.object [])⟩
        = Except.ok ⟨⟨[], "", ""⟩⟩ ∧
    (ICEServerCredentials.mk [] "" "").urls = [] ∧
    (ICEServerCredentials.mk [] "" "").username = "" ∧
    (ICEServerCredentials.mk [] "" "").credential = "" :=
  ⟨rfl, rfl, rfl, rfl⟩

/-- C3 amended: `getTurnCredentials` succeeds exactly on a 201 response
whose body JSON-unmarshals, and the success value is exactly the
unmarshalled value — no non-emptiness validation of the URL list, username
or credential is performed, so a 201 response with missing or empty fields
yields a partially populated success value. -/
theorem getTurnCredentials_success_iff (resp : HttpResponse) (c : TurnCredentials) :
    getTurnCredentials resp = Except.ok c ↔
      (resp.statusCode = 201 ∧
        ∃ v, resp.bodyJson = some v ∧ unmarshalTurnCredentials v = some c) := by
  rcases resp with ⟨code, st, body⟩
  unfold getTurnCredentials
  by_cases h : code = 201
  · subst h
    simp only [ne_eq, not_true_eq_false, if_false, ite_false, reduceIte]
    rcases body with _ | v
    · simp
    · simp only [Option.some.injEq]
      cases hu : unmarshalTurnCredentials v with
      | none => simp [hu]
      | some c2 =>
          simp only [hu]
          constructor
          · intro he
            injection he with he2
            exact ⟨trivial, v, rfl, by rw [hu, he2]⟩
          · rintro ⟨-, v2, hv2, hu2⟩
            subst hv2
            rw [hu] at hu2
            injection hu2 with hc
            rw [hc]
  · simp [h]

/-- C6: on any issuer response with a status other than 201, the credential
fetch returns an error whose message is the fixed prefix followed by the
response's status text (so the message contains the status text), and the
startup sequence panics on that error before a peer connection is
constructed. -/
theorem credential_http_failure (resp : HttpResponse) (h : resp.statusCode ≠ 201) :
    getTurnCredentials resp
        = Except.error ("failed to get TURN credentials, status: " ++ resp.status) ∧
    mainStartup resp
        = StartupOutcome.panicked
            ("failed to get TURN credentials, status: " ++ resp.status) ∧
    (∀ urls username credential,
      mainStartup resp ≠ StartupOutcome.pcCreated urls username credential) := by
  have hg : getTurnCredentials resp
      = Except.error ("failed to get TURN credentials, status: " ++ resp.status) := by
    unfold getTurnCredentials
    simp [h]
  refine ⟨hg, ?_, ?_⟩
  · unfold mainStartup
    rw [hg]
  · intro urls username credential
    unfold mainStartup
    rw [hg]
    simp

/-- C6's scenario at status 403: the fetch error carries the status text
"403 Forbidden" (which contains "403") and no peer connection is
constructed. -/
theorem credential_http_failure_403 :
    getTurnCredentials ⟨403, "403 Forbidden", none⟩
        = Except.error ("failed to get TURN credentials, status: " ++ "403 Forbidden") ∧
    mainStartup ⟨403, "403 Forbidden", none⟩
        = StartupOutcome.panicked
            ("failed to get TURN credentials, status: " ++ "403 Forbidden") :=
  ⟨(credential_http_failure ⟨403, "403 Forbidden", none⟩ (by decide)).1,
   (credential_http_failure ⟨403, "403 Forbidden", none⟩ (by decide)).2.1⟩

/-- C7: `decode` fails — modelling the panic in the Go `decode` — whenever
the token is not valid base64, or the base64-decoded bytes are not valid
UTF-8 JSON of the session-description shape; after such a failure the
negotiation panics before any description is applied to the transport. -/
theorem decode_failure_paths (tok : String)
    (h : decodeBase64 tok.data = none ∨
        (∀ bs, decodeBase64 tok.data = some bs →
          (utf8Decode bs = none ∨
            ∀ cs, utf8Decode bs = some cs → parseSessionDescription cs = none))) :
    decode tok = none ∧ applyRemoteOffer tok = NegotiationOutcome.panicked := by
  have hd : decode tok = none := by
    unfold decode
    rcases h with h | h
    · rw [h]
      rfl
    · cases hb : decodeBase64 tok.data with
      | none => rfl
      | some bs =>
          rcases h bs hb with h2 | h2
          · simp [hb, h2]
          · cases hc : utf8Decode bs with
            | none => simp [hb, hc]
            | some cs => simp [hb, hc, h2 cs hc]
  refine ⟨hd, ?_⟩
  unfold applyRemoteOffer
  rw [hd]

/-- C7's scenario: the input "not-base64!!" is not valid base64 ('!' and
'-' are outside the alphabet), so `decode` fails and no description is
applied. -/
theorem decode_failure_not_base64 :
    decode "not-base64!!" = none ∧
    applyRemoteOffer "not-base64!!" = NegotiationOutcome.panicked :=
  decode_failure_paths "not-base64!!" (Or.inl (by decide))

/-- C8's counterexample: the request body is the fixed `\x7b"ttl": 86400\x7d`;
a caller-intended TTL of 3600 seconds is not honored — the fetch takes no
TTL parameter at all. -/
theorem turnRequest_fixed_ttl :
    (turnRequest ⟨"token123", "key456"⟩).body = "\x7b\"ttl\": 86400\x7d" ∧
    turnRequest ⟨"token123", "key456"⟩
      ≠ specTurnRequest cloudflareAPI "key456" "token123" 3600 := by
  constructor
  · rfl
  · decide

/-- C8 amended: every invocation of the credential fetch issues exactly one
POST request to `\x7bbase\x7d/turn/keys/\x7bkey\x7d/credentials/generate` with the
bearer Authorization and JSON Content-Type headers — but the JSON body is
the fixed `\x7b"ttl": 86400\x7d`: the TTL is hard-coded to 86400 seconds, not
caller-supplied. -/
theorem turnRequest_matches_spec_at_86400 (env : Env) :
    turnRequest env
      = specTurnRequest cloudflareAPI env.turnToken env.cloudflareApiToken 86400 := by
  have hb : ("\x7b\"ttl\": " ++ toString 86400 ++ "\x7d") = "\x7b\"ttl\": 86400\x7d" := by
    decide
  simp [turnRequest, specTurnRequest, cloudflareTurnAPI, hb]

theorem dropWhile_length_le (p : Char → Bool) (l : List Char) :
    (List.dropWhile p l).length ≤ l.length := by
  induction l with
  | nil => simp
  | cons x xs ih =>
      rw [List.dropWhile_cons]
      split
      · exact le_trans ih (by simp)
      · simp

theorem string_length_zero (s : String) (h : s.length = 0) : s = "" := by
  cases s with
  | mk data =>
      cases data with
      | nil => rfl
      | cons c cs => simp [String.length] at h

theorem dropWhile_cons_self_head {p : Char → Bool} {x : Char} {l : List Char}
    (h : List.dropWhile p (x :: l) = x :: l) : p x = false := by
  by_contra hp
  have hP : p x = true := by simpa using hp
  rw [List.dropWhile_cons_of_pos hP] at h
  have hle : (List.dropWhile p l).length ≤ l.length := dropWhile_length_le p l
  rw [h] at hle
  simp at hle

theorem goTrimSpace_idem (s : String) : goTrimSpace (goTrimSpace s) = goTrimSpace s := by
  show String.mk (List.rdropWhile goIsSpace (List.dropWhile goIsSpace
      (List.rdropWhile goIsSpace (List.dropWhile goIsSpace s.data))))
    = String.mk (List.rdropWhile goIsSpace (List.dropWhile goIsSpace s.data))
  have hmfix : List.dropWhile goIsSpace (List.dropWhile goIsSpace s.data)
      = List.dropWhile goIsSpace s.data := List.dropWhile_idempotent goIsSpace s.data
  have h1 : List.dropWhile goIsSpace
      (List.rdropWhile goIsSpace (List.dropWhile goIsSpace s.data))
      = List.rdropWhile goIsSpace (List.dropWhile goIsSpace s.data) := by
    cases hc : List.rdropWhile goIsSpace (List.dropWhile goIsSpace s.data) with
    | nil => rfl
    | cons x xs =>
        obtain ⟨t2, ht2⟩ :=
          List.rdropWhile_prefix goIsSpace (List.dropWhile goIsSpace s.data)
        rw [hc] at ht2
        have hm : List.dropWhile goIsSpace s.data = x :: (xs ++ t2) := by
          rw [← ht2]
          rfl
        rw [hm] at hmfix
        have hx : goIsSpace x = false := dropWhile_cons_self_head hmfix
        rw [List.dropWhile_cons_of_neg (by simp [hx])]
  rw [h1, List.rdropWhile_idempotent]

/-- C10: over any finite prefix of `ReadString` results, `readUntilNewline`
(a) returns only the whitespace-trim of one of the error-free lines, and only
a non-empty, already-trimmed string; (b) returns exactly when some line
before the first non-EOF error has non-whitespace content; and (c) is still
looping — which at end-of-file, where `ReadString` yields `("", io.EOF)`
forever, means looping forever, EOF not being treated as an error — exactly
when every read is error-free (or EOF) and whitespace-only. -/
theorem readUntilNewline_spec (rs : List (String × ReadErrKind)) :
    (∀ s, readUntilNewline rs = ReadLoopOutcome.returns s →
      s ≠ "" ∧ goTrimSpace s = s ∧
        ∃ e ∈ rs, e.2 ≠ ReadErrKind.other ∧ s = goTrimSpace e.1) ∧
    ((∃ s, readUntilNewline rs = ReadLoopOutcome.returns s) ↔
      ∃ e ∈ rs.takeWhile (fun e => !(e.2 == ReadErrKind.other)),
        goTrimSpace e.1 ≠ "") ∧
    (readUntilNewline rs = ReadLoopOutcome.stillLooping ↔
      ∀ e ∈ rs, e.2 ≠ ReadErrKind.other ∧ goTrimSpace e.1 = "") := by
  induction rs with
  | nil =>
      refine ⟨?_, ?_, ?_⟩
      · intro s hs
        simp [readUntilNewline] at hs
      · simp [readUntilNewline]
      · simp [readUntilNewline]
  | cons e rest ih =>
      rcases e with ⟨line, kind⟩
      by_cases hk : kind = ReadErrKind.other
      · subst hk
        refine ⟨?_, ?_, ?_⟩
        · intro s hs
          simp [readUntilNewline] at hs
        · simp [readUntilNewline, List.takeWhile_cons]
        · constructor
          · intro hs
            simp [readUntilNewline] at hs
          · intro hall
            exact absurd rfl (hall (line, ReadErrKind.other) (by simp)).1
      · by_cases hline : 0 < (goTrimSpace line).length
        · have hret : readUntilNewline ((line, kind) :: rest)
              = ReadLoopOutcome.returns (goTrimSpace line) := by
            simp [readUntilNewline, hk, hline]
          have hne : goTrimSpace line ≠ "" := by
            intro hemp
            rw [hemp] at hline
            simp at hline
          refine ⟨?_, ?_, ?_⟩
          · intro s hs
            rw [hret] at hs
            injection hs with hs2
            subst hs2
            exact ⟨hne, goTrimSpace_idem line, ⟨(line, kind), by simp, hk, rfl⟩⟩
          · rw [hret]
            constructor
            · intro _
              refine ⟨(line, kind), ?_, hne⟩
              simp [List.takeWhile_cons, hk]
            · intro _
              exact ⟨goTrimSpace line, rfl⟩
          · rw [hret]
            constructor
            · intro hs
              cases hs
            · intro hall
              exact absurd ((hall (line, kind) (by simp)).2) hne
        · have hcont : readUntilNewline ((line, kind) :: rest)
              = readUntilNewline rest := by
            simp [readUntilNewline, hk, hline]
          have hemp : goTrimSpace line = "" := by
            have hlen : (goTrimSpace line).length = 0 := by omega
            exact string_length_zero _ hlen
          refine ⟨?_, ?_, ?_⟩
          · intro s hs
            rw [hcont] at hs
            obtain ⟨h1, h2, e2, he2, h3⟩ := ih.1 s hs
            exact ⟨h1, h2, e2, by simp [he2], h3⟩
          · rw [hcont, ih.2.1]
            simp [List.takeWhile_cons, hk, hemp]
          · rw [hcont, ih.2.2]
            constructor
            · intro hall
              intro e2 he2
              rcases (List.mem_cons).1 he2 with rfl | hmem
              · exact ⟨hk, hemp⟩
              · exact hall e2 hmem
            · intro hall e2 he2
              exact hall e2 (by simp [he2])

end CFCalls
